import Mathlib

/-!
# bzhash: difficulty check, protocol constants and the light/full hash engine

A shallow embedding of `libbzhash` (`bzhash.h`, `internal.h`).

* The constants of `bzhash.h` and the compile time settings of `internal.h`
  are plain numerals.
* `bzhash_h256_t` is the 32-byte struct of `bzhash.h`; a `uint8_t` is a
  `Fin 256`.
* `bzhash_check_difficulty` is the inline function of `internal.h`, its
  `for` loop written as a recursion on the number of iterations left.
* The two headers only declare the sizing functions, the cache and dataset
  generators, the hash engine and the quick check. Their bodies are modelled
  from the specification (sections 4.1 to 4.5); every such definition says so.
  The hash primitives `hash512` and `hash256` and the primality predicate of
  the size search are parameters.
-/

namespace Bzhash

/-! ## Constants of `bzhash.h` -/

def BZHASH_REVISION : Nat := 23
def BZHASH_DATASET_BYTES_INIT : Nat := 1073741824
def BZHASH_DATASET_BYTES_GROWTH : Nat := 8388608
def BZHASH_CACHE_BYTES_INIT : Nat := 1073741824
def BZHASH_CACHE_BYTES_GROWTH : Nat := 131072
def BZHASH_EPOCH_LENGTH : Nat := 30000
def BZHASH_MIX_BYTES : Nat := 128
def BZHASH_HASH_BYTES : Nat := 64
def BZHASH_DATASET_PARENTS : Nat := 256
def BZHASH_CACHE_ROUNDS : Nat := 3
def BZHASH_ACCESSES : Nat := 64
def BZHASH_DAG_MAGIC_NUM_SIZE : Nat := 8
def BZHASH_DAG_MAGIC_NUM : Nat := 0xFEE1DEADBADDCAFE

/-! ## Compile time settings of `internal.h` -/

def NODE_WORDS : Nat := 64 / 4
def MIX_WORDS : Nat := BZHASH_MIX_BYTES / 4
def MIX_NODES : Nat := MIX_WORDS / NODE_WORDS

/-- Number of elements of the `bytes` member of `union node`
(`uint8_t bytes[NODE_WORDS * 4]`). -/
def node_bytes_len : Nat := NODE_WORDS * 4

/-- Number of elements of the `words` member of `union node`
(`uint32_t words[NODE_WORDS]`). -/
def node_words_len : Nat := NODE_WORDS

/-- Number of elements of the `double_words` member of `union node`
(`uint64_t double_words[NODE_WORDS / 2]`). -/
def node_double_words_len : Nat := NODE_WORDS / 2

/-! ## `bzhash_h256_t` and the difficulty check -/

/-- The struct `bzhash_h256 { uint8_t b[32]; }`. -/
structure bzhash_h256_t where
  b : Fin 32 → Fin 256

/-- The accessor `bzhash_h256_get`: `hash->b[i]`. -/
def bzhash_h256_get (hash : bzhash_h256_t) (i : Fin 32) : Fin 256 := hash.b i

/-- The result of `bzhash_h256_reset`: all 32 bytes zero. -/
def bzhash_h256_reset : bzhash_h256_t := ⟨fun _ => 0⟩

/-- The loop of `bzhash_check_difficulty`, entered at index `i` with `fuel`
iterations allowed: equal bytes `continue`, the first unequal pair returns
`hash[i] < boundary[i]`, and leaving the loop returns `true`. -/
def check_difficulty_loop (hash boundary : bzhash_h256_t) : Nat → Nat → Bool
  | 0, _ => true
  | fuel + 1, i =>
    if h : i < 32 then
      if bzhash_h256_get hash ⟨i, h⟩ = bzhash_h256_get boundary ⟨i, h⟩ then
        check_difficulty_loop hash boundary fuel (i + 1)
      else
        decide (bzhash_h256_get hash ⟨i, h⟩ < bzhash_h256_get boundary ⟨i, h⟩)
    else true

/-- The function `bzhash_check_difficulty`: the loop run from `i = 0`; it makes
at most 32 iterations. -/
def bzhash_check_difficulty (hash boundary : bzhash_h256_t) : Bool :=
  check_difficulty_loop hash boundary 32 0

/-- The 32 bytes read as a big-endian unsigned integer: byte 0 is the most
significant, `value = Σ b[i] * 256^(31-i)`. -/
def h256_value (h : bzhash_h256_t) : Nat :=
  ∑ i : Fin 32, (h.b i).val * 256 ^ (31 - i.val)

/-! ### Auxiliary: the value of a suffix of the byte array -/

/-- Byte `j` as a natural number (`0` past the end of the array). -/
def byteAt (h : bzhash_h256_t) (j : Nat) : Nat :=
  if hj : j < 32 then (h.b ⟨j, hj⟩).val else 0

/-- Big-endian value of the `n` bytes starting at index `i`. -/
def suffixValue (h : bzhash_h256_t) : Nat → Nat → Nat
  | 0, _ => 0
  | n + 1, i => byteAt h i * 256 ^ n + suffixValue h n (i + 1)


/-! ## Bytes, words and nodes -/

/-- The external hash primitives, `hash512 : bytes → 64 bytes` and
`hash256 : bytes → 32 bytes`, consumed as black boxes. A byte string is a list
of numbers; whoever reads the output reads each entry modulo 256 and a missing
entry as 0. -/
structure hash_primitives where
  hash512 : List Nat → List Nat
  hash256 : List Nat → List Nat

/-- The 32 bytes of a `bzhash_h256_t`, in index order. -/
def h256_bytes (h : bzhash_h256_t) : List Nat := List.ofFn fun i => (h.b i).val

/-- Byte `k` of a byte string. -/
def byte_of (l : List Nat) (k : Nat) : Nat := l.getD k 0 % 256

/-- The first 32 bytes of a byte string as a `bzhash_h256_t`. -/
def h256_of_bytes (l : List Nat) : bzhash_h256_t :=
  ⟨fun i => ⟨byte_of l i.val, Nat.mod_lt _ (by decide)⟩⟩

/-- The `n` low bytes of `v`, least significant first (little endian). -/
def le_bytes (v : Nat) : Nat → List Nat
  | 0 => []
  | n + 1 => v % 256 :: le_bytes (v / 256) n

/-- The `union node` of `internal.h`, held through its `words` view:
`NODE_WORDS` (16) words of 32 bits. -/
structure node where
  words : List Nat

/-- Word `i` of a node: `n.words[i]`. -/
def node_word (n : node) (i : Nat) : Nat := n.words.getD i 0

/-- The all-zero node. -/
def zero_node : node := ⟨List.replicate 16 0⟩

/-- The `bytes` view of a node: every word as 4 little-endian bytes. -/
def node_bytes (n : node) : List Nat :=
  (List.range 16).flatMap fun i => le_bytes (node_word n i) 4

/-- The node whose `bytes` view is the first 64 bytes of `l`: word `i` is the
little-endian reading of bytes `4i .. 4i+3`. -/
def node_of_bytes (l : List Nat) : node :=
  ⟨(List.range 16).map fun i =>
    byte_of l (4 * i) + 256 * byte_of l (4 * i + 1) + 65536 * byte_of l (4 * i + 2)
      + 16777216 * byte_of l (4 * i + 3)⟩

/-- Modelled from the spec: `hash512` applied to the 64 bytes of a node, the
result again a node (the body of the hash wrapper is not in the headers). -/
def hash512_node (P : hash_primitives) (n : node) : node :=
  node_of_bytes (P.hash512 (node_bytes n))

/-- The FNV prime `0x01000193`. -/
def FNV_PRIME : Nat := 0x01000193

/-- Modelled from the spec: the FNV-style combine, `fnv(a,b) = (a * 0x01000193) XOR b`
on 32-bit words (its definition is in a header that is not part of the sources). -/
def fnv (a b : Nat) : Nat := ((a * FNV_PRIME) ^^^ b) % 2 ^ 32

/-- Word-wise XOR of two nodes. -/
def node_xor (a b : node) : node :=
  ⟨(List.range 16).map fun w => node_word a w ^^^ node_word b w⟩

/-- Word-wise FNV combine of two nodes. -/
def node_fnv (a b : node) : node :=
  ⟨(List.range 16).map fun w => fnv (node_word a w) (node_word b w)⟩

/-- Element `i` of a buffer of nodes. -/
def node_at (buf : List node) (i : Nat) : node := buf.getD i zero_node

/-! ## Epoch and sizing (spec 4.1) -/

/-- Modelled from the spec: `epoch(block_number) = block_number / EPOCH_LENGTH`
(the body of the sizing code is not in the headers). -/
def epoch (block_number : Nat) : Nat := block_number / BZHASH_EPOCH_LENGTH

/-- Modelled from the spec: `bzhash_get_seedhash`, declared in `bzhash.h`
without a body: start from 32 zero bytes and apply `hash256`
`epoch(block_number)` times. -/
def bzhash_get_seedhash (P : hash_primitives) (block_number : Nat) : bzhash_h256_t :=
  Nat.iterate (fun s => h256_of_bytes (P.hash256 (h256_bytes s))) (epoch block_number)
    bzhash_h256_reset

/-- Modelled from the spec: the size search, whose body is not in the headers:
the candidate `sz` is decremented by two elements (`2 * unit`) until
`sz / unit` satisfies the primality predicate `isprime`. Arithmetic is exact:
`none` stands for a search that finds no candidate before the next decrement
would pass below zero. With `fuel = sz / (2 * unit) + 1` the fuel never runs
out first. -/
def size_search (isprime : Nat → Bool) (unit : Nat) : Nat → Nat → Option Nat
  | 0, _ => none
  | fuel + 1, sz =>
    if isprime (sz / unit) then some sz
    else if sz < 2 * unit then none
    else size_search isprime unit fuel (sz - 2 * unit)

/-- Modelled from the spec: the starting candidate of the cache size,
`CACHE_BYTES_INIT + CACHE_BYTES_GROWTH * epoch - NODE_BYTES`. -/
def cache_size_start (e : Nat) : Nat :=
  BZHASH_CACHE_BYTES_INIT + BZHASH_CACHE_BYTES_GROWTH * e - BZHASH_HASH_BYTES

/-- Modelled from the spec: the starting candidate of the dataset size,
`DATASET_BYTES_INIT + DATASET_BYTES_GROWTH * epoch - MIX_BYTES`. -/
def dataset_size_start (e : Nat) : Nat :=
  BZHASH_DATASET_BYTES_INIT + BZHASH_DATASET_BYTES_GROWTH * e - BZHASH_MIX_BYTES

/-- Modelled from the spec: `bzhash_get_cachesize`, declared in `internal.h`
without a body: the size search from `cache_size_start` in steps of
`2 * NODE_BYTES`. -/
def bzhash_get_cachesize (isprime : Nat → Bool) (block_number : Nat) : Option Nat :=
  size_search isprime BZHASH_HASH_BYTES
    (cache_size_start (epoch block_number) / (2 * BZHASH_HASH_BYTES) + 1)
    (cache_size_start (epoch block_number))

/-- Modelled from the spec: `bzhash_get_datasize`, declared in `internal.h`
without a body: the size search from `dataset_size_start` in steps of
`2 * MIX_BYTES`. -/
def bzhash_get_datasize (isprime : Nat → Bool) (block_number : Nat) : Option Nat :=
  size_search isprime BZHASH_MIX_BYTES
    (dataset_size_start (epoch block_number) / (2 * BZHASH_MIX_BYTES) + 1)
    (dataset_size_start (epoch block_number))

/-- Modelled from the spec: the cache size candidate after `k` decrements at
epoch `e`, in exact integer arithmetic:
`CACHE_BYTES_INIT + CACHE_BYTES_GROWTH*e - 64 - k*(2*64)`. -/
def cache_size_candidate (e k : Nat) : Int :=
  (BZHASH_CACHE_BYTES_INIT : Int) + (BZHASH_CACHE_BYTES_GROWTH : Int) * e - 64 - k * (2 * 64)

/-- Modelled from the spec: the dataset size candidate after `k` decrements at
epoch `e`, in exact integer arithmetic:
`DATASET_BYTES_INIT + DATASET_BYTES_GROWTH*e - 128 - k*(2*128)`. -/
def dataset_size_candidate (e k : Nat) : Int :=
  (BZHASH_DATASET_BYTES_INIT : Int) + (BZHASH_DATASET_BYTES_GROWTH : Int) * e - 128
    - k * (2 * 128)

/-! ## Cache generator (spec 4.2) -/

/-- The struct `bzhash_light` of `internal.h`. -/
structure bzhash_light where
  cache : List node
  cache_size : Nat
  block_number : Nat

/-- Modelled from the spec: the hash chain of phase 1 after its first entry:
`cache[i] = hash512(cache[i-1])`, for `k` more entries. -/
def cache_chain (P : hash_primitives) : Nat → node → List node
  | 0, _ => []
  | k + 1, prev => hash512_node P prev :: cache_chain P k (hash512_node P prev)

/-- Modelled from the spec: phase 1 of the cache generator for `n` entries:
`cache[0] = hash512(seed)`, then the chain. -/
def cache_phase1 (P : hash_primitives) (seed : bzhash_h256_t) : Nat → List node
  | 0 => []
  | k + 1 =>
    node_of_bytes (P.hash512 (h256_bytes seed))
      :: cache_chain P k (node_of_bytes (P.hash512 (h256_bytes seed)))

/-- Modelled from the spec: the in-place update of entry `i` in a mixing pass:
`v = (first word of cache[i]) mod n`,
`cache[i] = hash512(cache[(i-1+n) mod n] XOR cache[v])`, read from the buffer as
it stands. -/
def cache_round_step (P : hash_primitives) (n : Nat) (cache : List node) (i : Nat) :
    List node :=
  cache.set i
    (hash512_node P
      (node_xor (node_at cache ((i + n - 1) % n))
        (node_at cache (node_word (node_at cache i) 0 % n))))

/-- Modelled from the spec: one full pass over all `n` entries in index order. -/
def cache_round (P : hash_primitives) (n : Nat) (cache : List node) : List node :=
  (List.range n).foldl (cache_round_step P n) cache

/-- Modelled from the spec: `bzhash_compute_cache_nodes`, named in the headers and
not defined there: phase 1, then `CACHE_ROUNDS` passes; no cache for a
`cache_size` that is not a positive multiple of 64. -/
def bzhash_compute_cache_nodes (P : hash_primitives) (cache_size : Nat)
    (seed : bzhash_h256_t) : Option (List node) :=
  if cache_size = 0 ∨ cache_size % BZHASH_HASH_BYTES ≠ 0 then none
  else
    some ((List.range BZHASH_CACHE_ROUNDS).foldl
      (fun c _ => cache_round P (cache_size / BZHASH_HASH_BYTES) c)
      (cache_phase1 P seed (cache_size / BZHASH_HASH_BYTES)))

/-- Modelled from the spec: `bzhash_light_new_internal`, declared in `internal.h`
without a body: the handle holding the cache built for `cache_size` and `seed`,
or no handle. -/
def bzhash_light_new_internal (P : hash_primitives) (cache_size : Nat)
    (seed : bzhash_h256_t) : Option bzhash_light :=
  (bzhash_compute_cache_nodes P cache_size seed).map fun c => ⟨c, cache_size, 0⟩

/-- Modelled from the spec: `bzhash_light_new`, declared in `bzhash.h` without a
body: seed and cache size are those of the block number, which the handle
records. -/
def bzhash_light_new (P : hash_primitives) (isprime : Nat → Bool) (block_number : Nat) :
    Option bzhash_light :=
  match bzhash_get_cachesize isprime block_number with
  | none => none
  | some cache_size =>
    (bzhash_light_new_internal P cache_size (bzhash_get_seedhash P block_number)).map
      fun l => { l with block_number := block_number }

/-! ## Dataset generator (spec 4.3) -/

/-- Modelled from the spec: `bzhash_calculate_dag_item`, declared in `internal.h`
without a body. With `n = cache_size / 64`: `mix = cache[index mod n]`, its
first word XORed with `index`, hashed; for `j` in `0..DATASET_PARENTS`,
`parent = fnv(index XOR j, mix_word[j mod 16]) mod n` and `mix` is combined
word-wise with `cache[parent]`; the element is `hash512(mix)`. -/
def bzhash_calculate_dag_item (P : hash_primitives) (node_index : Nat)
    (light : bzhash_light) : node :=
  let n := light.cache_size / BZHASH_HASH_BYTES
  let init := node_at light.cache (node_index % n)
  let mix0 := hash512_node P
    ⟨(List.range 16).map fun w =>
      if w = 0 then node_word init w ^^^ node_index else node_word init w⟩
  let mix := (List.range BZHASH_DATASET_PARENTS).foldl
    (fun mix j =>
      node_fnv mix (node_at light.cache (fnv (node_index ^^^ j) (node_word mix (j % 16)) % n)))
    mix0
  hash512_node P mix

/-- Modelled from the spec: the percentage of the `total` elements completed
once `done` of them are written. -/
def percent_done (total done : Nat) : Nat := done * 100 / total

/-- Modelled from the spec: the generation loop, at element `i` with `rem`
elements left: element `i` is `calc_dataset_item(cache, i)`; when writing it
completes a chunk (the percentage rises), the callback is invoked with the
percentage and a non-zero answer aborts. -/
def full_data_loop (P : hash_primitives) (light : bzhash_light) (callback : Nat → Int)
    (total : Nat) : Nat → Nat → Option (List node)
  | 0, _ => some []
  | rem + 1, i =>
    if percent_done total (i + 1) ≠ percent_done total i
        ∧ callback (percent_done total (i + 1)) ≠ 0 then none
    else
      (full_data_loop P light callback total rem (i + 1)).map
        fun rest => bzhash_calculate_dag_item P i light :: rest

/-- Modelled from the spec: `bzhash_compute_full_data`, declared in `internal.h`
without a body: elements `0 .. full_size/64` in index order; no dataset for a
`full_size` that is not a positive multiple of 128, or when the callback
aborts. -/
def bzhash_compute_full_data (P : hash_primitives) (full_size : Nat)
    (light : bzhash_light) (callback : Nat → Int) : Option (List node) :=
  if full_size = 0 ∨ full_size % BZHASH_MIX_BYTES ≠ 0 then none
  else
    full_data_loop P light callback (full_size / BZHASH_HASH_BYTES)
      (full_size / BZHASH_HASH_BYTES) 0

/-- The struct `bzhash_full` of `internal.h`, without its `FILE*` (persistence
is outside the engine). -/
structure bzhash_full where
  file_size : Nat
  data : List node

/-- Modelled from the spec: `bzhash_full_new_internal`, declared in `internal.h`
without a body, less the DAG file: the handle holding the dataset generated
from the light handle's cache, or no handle. -/
def bzhash_full_new_internal (P : hash_primitives) (full_size : Nat)
    (light : bzhash_light) (callback : Nat → Int) : Option bzhash_full :=
  (bzhash_compute_full_data P full_size light callback).map fun d => ⟨full_size, d⟩

/-- Modelled from the spec: `bzhash_full_new`, declared in `bzhash.h` without a
body: the dataset size is that of the light handle's block number. -/
def bzhash_full_new (P : hash_primitives) (isprime : Nat → Bool) (light : bzhash_light)
    (callback : Nat → Int) : Option bzhash_full :=
  match bzhash_get_datasize isprime light.block_number with
  | none => none
  | some full_size => bzhash_full_new_internal P full_size light callback

/-! ## Hash engine (spec 4.4) -/

/-- The struct `bzhash_return_value` of `bzhash.h`. -/
structure bzhash_return_value_t where
  result : bzhash_h256_t
  mix_hash : bzhash_h256_t
  success : Bool

/-- The return value of a failed `compute`: `success = false`; the digests carry
no meaning and are held at zero. -/
def failed_return_value : bzhash_return_value_t :=
  ⟨bzhash_h256_reset, bzhash_h256_reset, false⟩

/-- Modelled from the spec: one access of the mixing loop.
`p = fnv(i XOR seed_word[0], mix_word[i mod MIX_WORDS]) mod (full_size/64/MIX_NODES) * MIX_NODES`;
the `MIX_NODES` elements `p, p+1` are fetched through `lookup` and combined
word-wise into `mix`. -/
def mix_access (lookup : Nat → node) (full_size : Nat) (seed : node) (mix : List Nat)
    (i : Nat) : List Nat :=
  let p := fnv (i ^^^ node_word seed 0) (mix.getD (i % MIX_WORDS) 0)
    % (full_size / BZHASH_HASH_BYTES / MIX_NODES) * MIX_NODES
  let fetched := (List.range MIX_NODES).map fun k => lookup (p + k)
  (List.range MIX_WORDS).map fun w =>
    fnv (mix.getD w 0) (node_word (node_at fetched (w / NODE_WORDS)) (w % NODE_WORDS))

/-- Modelled from the spec: the mixing loop of section 4.4 (the body of the hash
engine is not in the headers), over a `lookup` of dataset elements by index.
1. `seed = hash512(header_hash || little_endian_bytes(nonce))`;
2. `mix` is `MIX_NODES` copies of `seed`;
3. `ACCESSES` accesses;
4. every 4 consecutive words are folded with `fnv` into the `mix_hash`;
5. `result = hash256(seed || mix_hash)`.
A `full_size` that is zero or not aligned to `MIX_BYTES` fails. -/
def bzhash_hash (P : hash_primitives) (lookup : Nat → node) (full_size : Nat)
    (header_hash : bzhash_h256_t) (nonce : Nat) : bzhash_return_value_t :=
  if full_size = 0 ∨ full_size % BZHASH_MIX_BYTES ≠ 0 then failed_return_value
  else
    let seed := node_of_bytes (P.hash512 (h256_bytes header_hash ++ le_bytes nonce 8))
    let mix0 := (List.range MIX_WORDS).map fun w => node_word seed (w % NODE_WORDS)
    let mix := (List.range BZHASH_ACCESSES).foldl (mix_access lookup full_size seed) mix0
    let cmix := (List.range (MIX_WORDS / 4)).map fun k =>
      fnv (fnv (fnv (mix.getD (4 * k) 0) (mix.getD (4 * k + 1) 0)) (mix.getD (4 * k + 2) 0))
        (mix.getD (4 * k + 3) 0)
    let mix_hash := h256_of_bytes (cmix.flatMap fun w => le_bytes w 4)
    ⟨h256_of_bytes (P.hash256 (node_bytes seed ++ h256_bytes mix_hash)), mix_hash, true⟩

/-- Modelled from the spec: `bzhash_light_compute_internal`, declared in
`internal.h` without a body: the light path derives every fetched element from
the cache on the fly. -/
def bzhash_light_compute_internal (P : hash_primitives) (light : bzhash_light)
    (full_size : Nat) (header_hash : bzhash_h256_t) (nonce : Nat) : bzhash_return_value_t :=
  bzhash_hash P (fun i => bzhash_calculate_dag_item P i light) full_size header_hash nonce

/-- Modelled from the spec: `bzhash_light_compute`, declared in `bzhash.h` without a
body: the dataset size is that of the handle's block number. -/
def bzhash_light_compute (P : hash_primitives) (isprime : Nat → Bool) (light : bzhash_light)
    (header_hash : bzhash_h256_t) (nonce : Nat) : bzhash_return_value_t :=
  match bzhash_get_datasize isprime light.block_number with
  | none => failed_return_value
  | some full_size => bzhash_light_compute_internal P light full_size header_hash nonce

/-- Modelled from the spec: `bzhash_full_compute`, declared in `bzhash.h` without a
body: the full path reads every fetched element from the prebuilt dataset. -/
def bzhash_full_compute (P : hash_primitives) (full : bzhash_full)
    (header_hash : bzhash_h256_t) (nonce : Nat) : bzhash_return_value_t :=
  bzhash_hash P (fun i => node_at full.data i) full.file_size header_hash nonce

/-! ## Difficulty verifier (spec 4.5) -/

/-- Modelled from the spec: `bzhash_quick_hash`, declared in `internal.h` without a
body: `hash256(header_hash || little_endian_bytes(nonce) || mix_hash)`. -/
def bzhash_quick_hash (P : hash_primitives) (header_hash : bzhash_h256_t) (nonce : Nat)
    (mix_hash : bzhash_h256_t) : bzhash_h256_t :=
  h256_of_bytes (P.hash256 (h256_bytes header_hash ++ le_bytes nonce 8 ++ h256_bytes mix_hash))

/-- Modelled from the spec: `bzhash_quick_check_difficulty`, declared in
`internal.h` without a body: the quick hash is computed into a local
`return_hash`, which is then checked against the boundary. -/
def bzhash_quick_check_difficulty (P : hash_primitives) (header_hash : bzhash_h256_t)
    (nonce : Nat) (mix_hash : bzhash_h256_t) (boundary : bzhash_h256_t) : Bool :=
  let return_hash := bzhash_quick_hash P header_hash nonce mix_hash
  bzhash_check_difficulty return_hash boundary

/-! ## Concrete values used to instantiate the theorems -/

/-- A value with bytes `b[3] = 5` and `b[4] = 255`, all others zero. -/
def witness_hash : bzhash_h256_t := ⟨fun i => if i = 3 then 5 else if i = 4 then 255 else 0⟩

/-- A value with byte `b[3] = 6`, all others zero. -/
def witness_boundary : bzhash_h256_t := ⟨fun i => if i = 3 then 6 else 0⟩

/-- A value with byte `b[0] = 1`, all others zero. -/
def witness_loose : bzhash_h256_t := ⟨fun i => if i = 0 then 1 else 0⟩

/-- Hash primitives that return the empty byte string (read as all zero). -/
def witness_primitives : hash_primitives := ⟨fun _ => [], fun _ => []⟩

/-- The light handle of block 0 under a size search that accepts its start. -/
def witness_light : bzhash_light :=
  (bzhash_light_new witness_primitives (fun _ => true) 0).getD ⟨[], 0, 0⟩

/-- The full handle generated from `witness_light` with a callback that never
asks to stop. -/
def witness_full : bzhash_full :=
  (bzhash_full_new witness_primitives (fun _ => true) witness_light (fun _ => 0)).getD ⟨0, []⟩

/-! # Theorems -/

/-! ## The difficulty check compares big-endian values -/

/-- A byte is below 256. -/
theorem byteAt_lt (h : bzhash_h256_t) (j : Nat) : byteAt h j < 256 := by
  unfold byteAt
  split
  · exact (h.b _).isLt
  · decide

/-- The value of `n` bytes is below `256^n`. -/
theorem suffixValue_lt (h : bzhash_h256_t) (n i : Nat) :
    suffixValue h n i < 256 ^ n := by
  induction n generalizing i with
  | zero => simp [suffixValue]
  | succ n ih =>
    have h1 := byteAt_lt h i
    have h2 := ih (i + 1)
    have h3 : (byteAt h i + 1) * 256 ^ n ≤ 256 * 256 ^ n :=
      Nat.mul_le_mul_right _ h1
    simp only [suffixValue]
    rw [pow_succ]
    nlinarith

/-- The suffix value written as a sum of bytes times powers of 256. -/
theorem suffixValue_eq_sum (h : bzhash_h256_t) (n i : Nat) :
    suffixValue h n i = ∑ k in Finset.range n, byteAt h (i + k) * 256 ^ (n - 1 - k) := by
  induction n generalizing i with
  | zero => simp [suffixValue]
  | succ n ih =>
    rw [Finset.sum_range_succ', suffixValue, ih (i + 1)]
    simp only [Nat.add_zero, Nat.add_sub_cancel, Nat.sub_zero]
    rw [Nat.add_comm]
    congr 1
    apply Finset.sum_congr rfl
    intro k _
    have e1 : i + 1 + k = i + (k + 1) := by omega
    have e2 : n - (k + 1) = n - 1 - k := by omega
    rw [e1, e2]

/-- The big-endian value is the suffix value of all 32 bytes. -/
theorem h256_value_eq_suffixValue (h : bzhash_h256_t) :
    h256_value h = suffixValue h 32 0 := by
  rw [suffixValue_eq_sum, h256_value,
    ← Fin.sum_univ_eq_sum_range (fun k => byteAt h (0 + k) * 256 ^ (32 - 1 - k)) 32]
  apply Finset.sum_congr rfl
  intro i _
  simp [byteAt, i.isLt]

/-- The loop entered at `i` with `n` iterations left compares the suffix
values. -/
theorem check_difficulty_loop_iff (hash boundary : bzhash_h256_t) (n i : Nat)
    (hn : i + n = 32) :
    check_difficulty_loop hash boundary n i = true ↔
      suffixValue hash n i ≤ suffixValue boundary n i := by
  induction n generalizing i with
  | zero => simp [check_difficulty_loop, suffixValue]
  | succ n ih =>
    have hi : i < 32 := by omega
    have ha : byteAt hash i = (hash.b ⟨i, hi⟩).val := by simp [byteAt, hi]
    have hb : byteAt boundary i = (boundary.b ⟨i, hi⟩).val := by simp [byteAt, hi]
    have ta := suffixValue_lt hash n (i + 1)
    have tb := suffixValue_lt boundary n (i + 1)
    simp only [check_difficulty_loop, hi, dif_pos, bzhash_h256_get, suffixValue]
    by_cases heq : hash.b ⟨i, hi⟩ = boundary.b ⟨i, hi⟩
    · rw [if_pos heq, ih (i + 1) (by omega), ha, hb, heq]
      omega
    · rw [if_neg heq, ha, hb]
      have hne : (hash.b ⟨i, hi⟩).val ≠ (boundary.b ⟨i, hi⟩).val :=
        fun hv => heq (Fin.ext hv)
      simp only [decide_eq_true_eq, Fin.lt_def]
      constructor
      · intro hlt
        have : ((hash.b ⟨i, hi⟩).val + 1) * 256 ^ n ≤ (boundary.b ⟨i, hi⟩).val * 256 ^ n :=
          Nat.mul_le_mul_right _ hlt
        nlinarith
      · intro hle
        by_contra hnlt
        have hgt : (boundary.b ⟨i, hi⟩).val + 1 ≤ (hash.b ⟨i, hi⟩).val := by omega
        have : ((boundary.b ⟨i, hi⟩).val + 1) * 256 ^ n ≤ (hash.b ⟨i, hi⟩).val * 256 ^ n :=
          Nat.mul_le_mul_right _ hgt
        nlinarith

/-- The check passes exactly when the value of `hash` is at most the value of
`boundary`. -/
theorem check_difficulty_iff_value (hash boundary : bzhash_h256_t) :
    bzhash_check_difficulty hash boundary = true ↔ h256_value hash ≤ h256_value boundary := by
  rw [h256_value_eq_suffixValue, h256_value_eq_suffixValue]
  exact check_difficulty_loop_iff hash boundary 32 0 rfl


/-- All bytes from index `i` on equal: the loop runs to its end and passes. -/
theorem check_difficulty_loop_of_eq (hash boundary : bzhash_h256_t) (n i : Nat)
    (heq : ∀ j : Fin 32, i ≤ j.val → hash.b j = boundary.b j) :
    check_difficulty_loop hash boundary n i = true := by
  induction n generalizing i with
  | zero => simp [check_difficulty_loop]
  | succ n ih =>
    unfold check_difficulty_loop
    by_cases hi : i < 32
    · have hb : hash.b ⟨i, hi⟩ = boundary.b ⟨i, hi⟩ := heq ⟨i, hi⟩ (Nat.le_refl _)
      simp only [hi, dif_pos, bzhash_h256_get, hb, if_true]
      exact ih (i + 1) fun j hj => heq j (by omega)
    · simp [hi]

/-- The first index `k ≥ i` at which the bytes differ decides the loop entered
at `i`. -/
theorem check_difficulty_loop_first_diff (hash boundary : bzhash_h256_t) (n i : Nat)
    (k : Fin 32) (hn : i + n = 32) (hik : i ≤ k.val)
    (heq : ∀ j : Fin 32, i ≤ j.val → j < k → hash.b j = boundary.b j)
    (hne : hash.b k ≠ boundary.b k) :
    check_difficulty_loop hash boundary n i = decide (hash.b k < boundary.b k) := by
  induction n generalizing i with
  | zero => exact absurd k.isLt (by omega)
  | succ n ih =>
    have hi : i < 32 := by omega
    unfold check_difficulty_loop
    simp only [hi, dif_pos, bzhash_h256_get]
    by_cases hk : i = k.val
    · have hki : (⟨i, hi⟩ : Fin 32) = k := Fin.ext hk
      rw [hki, if_neg hne]
    · have hlt : (⟨i, hi⟩ : Fin 32) < k := by
        rw [Fin.lt_def]
        show i < k.val
        omega
      rw [if_pos (heq ⟨i, hi⟩ (Nat.le_refl _) hlt)]
      exact ih (i + 1) (by omega) (by omega) fun j hj hjk => heq j (by omega) hjk

/-- Passing in both directions from index `i` forces equal bytes from `i` on. -/
theorem check_difficulty_loop_antisymm (a b : bzhash_h256_t) (n i : Nat) (hn : i + n = 32)
    (hab : check_difficulty_loop a b n i = true)
    (hba : check_difficulty_loop b a n i = true) :
    ∀ j : Fin 32, i ≤ j.val → a.b j = b.b j := by
  induction n generalizing i with
  | zero => intro j hj; exact absurd j.isLt (by omega)
  | succ n ih =>
    have hi : i < 32 := by omega
    unfold check_difficulty_loop at hab hba
    simp only [hi, dif_pos, bzhash_h256_get] at hab hba
    by_cases heq : a.b ⟨i, hi⟩ = b.b ⟨i, hi⟩
    · rw [if_pos heq] at hab
      rw [if_pos heq.symm] at hba
      intro j hj
      by_cases hji : j.val = i
      · have : j = ⟨i, hi⟩ := Fin.ext hji
        rw [this]; exact heq
      · exact ih (i + 1) (by omega) hab hba j (by omega)
    · rw [if_neg heq] at hab
      rw [if_neg (fun h => heq h.symm)] at hba
      simp only [decide_eq_true_eq] at hab hba
      exact absurd hab (not_lt_of_gt hba)

/-- Once the iterations allowed reach the end of the array, allowing more does
not change the result of the loop: 32 iterations from index 0 are enough. -/
theorem check_difficulty_loop_fuel (hash boundary : bzhash_h256_t) (n m i : Nat)
    (hn : 32 ≤ i + n) (hm : 32 ≤ i + m) :
    check_difficulty_loop hash boundary n i = check_difficulty_loop hash boundary m i := by
  induction n generalizing m i with
  | zero =>
    have hi : ¬ i < 32 := by omega
    cases m with
    | zero => rfl
    | succ m => simp [check_difficulty_loop, hi]
  | succ n ih =>
    cases m with
    | zero =>
      have hi : ¬ i < 32 := by omega
      simp [check_difficulty_loop, hi]
    | succ m =>
      unfold check_difficulty_loop
      by_cases hi : i < 32
      · simp only [hi, dif_pos]
        rw [ih m (i + 1) (by omega) (by omega)]
      · simp [hi]

/-! ## Claims on `bzhash_check_difficulty` -/

/-- C1: for every pair of 32-byte values, `bzhash_check_difficulty hash boundary`
is true if and only if `hash ≤ boundary` when both are read as big-endian
256-bit unsigned integers, `value = Σ b[i] * 256^(31-i)`. -/
theorem bzhash_check_difficulty_iff_le (hash boundary : bzhash_h256_t) :
    bzhash_check_difficulty hash boundary = true ↔
      (∑ i : Fin 32, (hash.b i).val * 256 ^ (31 - i.val))
        ≤ ∑ i : Fin 32, (boundary.b i).val * 256 ^ (31 - i.val) :=
  check_difficulty_iff_value hash boundary

/-- C2: if the two values are equal on all 32 bytes the check returns true;
otherwise, with `i` the smallest index at which the bytes differ, it returns
exactly `hash.b[i] < boundary.b[i]`, whatever the bytes after `i` are. -/
theorem bzhash_check_difficulty_first_diff (hash boundary : bzhash_h256_t) :
    ((∀ j : Fin 32, hash.b j = boundary.b j) → bzhash_check_difficulty hash boundary = true)
    ∧ ∀ i : Fin 32, (∀ j : Fin 32, j < i → hash.b j = boundary.b j) →
        hash.b i ≠ boundary.b i →
        bzhash_check_difficulty hash boundary = decide (hash.b i < boundary.b i) :=
  ⟨fun heq => check_difficulty_loop_of_eq hash boundary 32 0 fun j _ => heq j,
   fun i heq hne =>
    check_difficulty_loop_first_diff hash boundary 32 0 i rfl (Nat.zero_le _)
      (fun j _ hj => heq j hj) hne⟩

/-- Witness for C2: the values differ first at byte 3 (`5` against `6`), the
later bytes favour the other side, and the check returns `5 < 6`. -/
theorem bzhash_check_difficulty_first_diff_witness :
    bzhash_check_difficulty witness_boundary witness_boundary = true
    ∧ bzhash_check_difficulty witness_hash witness_boundary
      = decide (witness_hash.b 3 < witness_boundary.b 3) :=
  ⟨(bzhash_check_difficulty_first_diff witness_boundary witness_boundary).1 fun _ => rfl,
   (bzhash_check_difficulty_first_diff witness_hash witness_boundary).2 3
    (by decide) (by decide)⟩

/-- C9: the check is transitive: if `h` passes against `b` and `b` passes
against `b'`, then `h` passes against `b'`. -/
theorem bzhash_check_difficulty_trans (h b b' : bzhash_h256_t)
    (h1 : bzhash_check_difficulty h b = true) (h2 : bzhash_check_difficulty b b' = true) :
    bzhash_check_difficulty h b' = true :=
  (check_difficulty_iff_value h b').2
    (Nat.le_trans ((check_difficulty_iff_value h b).1 h1)
      ((check_difficulty_iff_value b b').1 h2))

/-- Witness for C9 at three concrete values. -/
theorem bzhash_check_difficulty_trans_witness :
    bzhash_check_difficulty witness_hash witness_boundary = true
    ∧ bzhash_check_difficulty witness_boundary witness_loose = true
    ∧ bzhash_check_difficulty witness_hash witness_loose = true :=
  ⟨by decide, by decide,
   bzhash_check_difficulty_trans witness_hash witness_boundary witness_loose
     (by decide) (by decide)⟩

/-- C10: the check is a total and antisymmetric order on 32-byte values: of
`check a b` and `check b a` at least one is true, and both are true if and only
if `a` and `b` are equal on all 32 bytes. -/
theorem bzhash_check_difficulty_total_antisymm (a b : bzhash_h256_t) :
    (bzhash_check_difficulty a b = true ∨ bzhash_check_difficulty b a = true)
    ∧ ((bzhash_check_difficulty a b = true ∧ bzhash_check_difficulty b a = true)
        ↔ ∀ i : Fin 32, a.b i = b.b i) := by
  refine ⟨?_, ?_, ?_⟩
  · rcases Nat.le_total (h256_value a) (h256_value b) with h | h
    · exact Or.inl ((check_difficulty_iff_value a b).2 h)
    · exact Or.inr ((check_difficulty_iff_value b a).2 h)
  · rintro ⟨hab, hba⟩ i
    exact check_difficulty_loop_antisymm a b 32 0 rfl hab hba i (Nat.zero_le _)
  · intro heq
    exact ⟨check_difficulty_loop_of_eq a b 32 0 fun j _ => heq j,
      check_difficulty_loop_of_eq b a 32 0 fun j _ => (heq j).symm⟩

/-- C3: for every header hash, nonce, mix hash and boundary,
`bzhash_quick_check_difficulty` equals `bzhash_check_difficulty` applied to the
hash produced by `bzhash_quick_hash` and the boundary. -/
theorem bzhash_quick_check_difficulty_eq (P : hash_primitives)
    (header_hash : bzhash_h256_t) (nonce : Nat) (mix_hash boundary : bzhash_h256_t) :
    bzhash_quick_check_difficulty P header_hash nonce mix_hash boundary
      = bzhash_check_difficulty (bzhash_quick_hash P header_hash nonce mix_hash) boundary :=
  rfl

/-! ## Claims on the constants -/

/-- C5: the constant `BZHASH_CACHE_BYTES_INIT` as defined is `1073741824 = 2^30`;
it is not the `2^24 = 16777216` of the comment on its definition. -/
theorem BZHASH_CACHE_BYTES_INIT_value :
    BZHASH_CACHE_BYTES_INIT = 2 ^ 30 ∧ BZHASH_CACHE_BYTES_INIT ≠ 2 ^ 24
      ∧ BZHASH_CACHE_BYTES_INIT ≠ 16777216 := by
  decide

/-- C7: the layout constants are `NODE_WORDS = 16`, `MIX_WORDS = MIX_BYTES/4 = 32`,
`MIX_NODES = MIX_WORDS/NODE_WORDS = 2`; the three views of a node cover the same
64 bytes (64 bytes, 16 words of 4 bytes, 8 double words of 8 bytes, which is
`BZHASH_HASH_BYTES`), and `MIX_NODES` nodes are exactly `BZHASH_MIX_BYTES` bytes. -/
theorem node_layout_constants :
    NODE_WORDS = 16
    ∧ MIX_WORDS = BZHASH_MIX_BYTES / 4 ∧ MIX_WORDS = 32
    ∧ MIX_NODES = MIX_WORDS / NODE_WORDS ∧ MIX_NODES = 2
    ∧ node_bytes_len = NODE_WORDS * 4 ∧ node_bytes_len * 1 = 64
    ∧ node_words_len = 16 ∧ node_words_len * 4 = 64
    ∧ node_double_words_len = NODE_WORDS / 2 ∧ node_double_words_len = 8
    ∧ node_double_words_len * 8 = 64
    ∧ node_bytes_len * 1 = BZHASH_HASH_BYTES
    ∧ MIX_NODES * BZHASH_HASH_BYTES = BZHASH_MIX_BYTES := by
  decide

/-- C8: the protocol constants are `BZHASH_EPOCH_LENGTH = 30000`,
`BZHASH_MIX_BYTES = 128`, `BZHASH_HASH_BYTES = 64`, `BZHASH_DATASET_PARENTS = 256`,
`BZHASH_CACHE_ROUNDS = 3` and `BZHASH_ACCESSES = 64`. -/
theorem protocol_constants :
    BZHASH_EPOCH_LENGTH = 30000 ∧ BZHASH_MIX_BYTES = 128 ∧ BZHASH_HASH_BYTES = 64
    ∧ BZHASH_DATASET_PARENTS = 256 ∧ BZHASH_CACHE_ROUNDS = 3 ∧ BZHASH_ACCESSES = 64 := by
  decide

/-! ## Size candidates -/

/-- Whatever the search returns lies a whole number of steps below its start. -/
theorem size_search_steps (isprime : Nat → Bool) (unit fuel sz s : Nat)
    (h : size_search isprime unit fuel sz = some s) :
    ∃ k, s + k * (2 * unit) = sz := by
  induction fuel generalizing sz with
  | zero => simp [size_search] at h
  | succ fuel ih =>
    unfold size_search at h
    split at h
    · exact ⟨0, by simp at h; omega⟩
    · split at h
      · simp at h
      · obtain ⟨k, hk⟩ := ih _ h
        exact ⟨k + 1, by rw [Nat.add_mul]; omega⟩

/-- The fuel `sz / (2 * unit) + 1` never runs out first: a search that returns
nothing has rejected every candidate `sz - k * (2 * unit)` down to zero. -/
theorem size_search_none (isprime : Nat → Bool) (unit fuel sz : Nat) (hu : 0 < unit)
    (hfuel : sz / (2 * unit) + 1 ≤ fuel)
    (h : size_search isprime unit fuel sz = none) :
    ∀ k, k * (2 * unit) ≤ sz → isprime ((sz - k * (2 * unit)) / unit) = false := by
  induction fuel generalizing sz with
  | zero => exact absurd hfuel (Nat.not_succ_le_zero _)
  | succ fuel ih =>
    unfold size_search at h
    split at h
    · simp at h
    · rename_i hp
      intro k hk
      cases k with
      | zero => simpa using hp
      | succ k =>
        rw [Nat.add_mul, Nat.one_mul] at hk
        split at h
        · omega
        · rename_i hlt
          have hdiv : (sz - 2 * unit) / (2 * unit) + 1 = sz / (2 * unit) := by
            have h2 : 0 < 2 * unit := by omega
            have hle : 2 * unit ≤ sz := by omega
            have := Nat.sub_mul_div sz (2 * unit) 1 (by simpa using hle)
            rw [Nat.mul_one] at this
            rw [this]
            have : 0 < sz / (2 * unit) := Nat.div_pos hle h2
            omega
          have := ih (sz - 2 * unit) (by omega) h k (by omega)
          rw [Nat.add_mul, Nat.one_mul]
          rwa [show sz - (k * (2 * unit) + 2 * unit) = sz - 2 * unit - k * (2 * unit) by omega]

/-- A search whose start satisfies the predicate returns the start. -/
theorem size_search_of_start (isprime : Nat → Bool) (unit fuel sz : Nat)
    (h : isprime (sz / unit) = true) :
    size_search isprime unit (fuel + 1) sz = some sz := by
  simp [size_search, h]

/-- Every cache size found is a positive multiple of 64 and is one of the
candidates of its epoch. -/
theorem bzhash_get_cachesize_spec (isprime : Nat → Bool) (block_number s : Nat)
    (h : bzhash_get_cachesize isprime block_number = some s) :
    0 < s ∧ s % 64 = 0 ∧ ∃ k, (s : Int) = cache_size_candidate (epoch block_number) k := by
  obtain ⟨k, hk⟩ := size_search_steps _ _ _ _ _ h
  simp only [cache_size_start, BZHASH_CACHE_BYTES_INIT, BZHASH_CACHE_BYTES_GROWTH,
    BZHASH_HASH_BYTES] at hk
  refine ⟨by omega, by omega, k, ?_⟩
  simp only [cache_size_candidate, BZHASH_CACHE_BYTES_INIT, BZHASH_CACHE_BYTES_GROWTH]
  push_cast
  omega

/-- Every dataset size found is a positive multiple of 128 and is one of the
candidates of its epoch. -/
theorem bzhash_get_datasize_spec (isprime : Nat → Bool) (block_number s : Nat)
    (h : bzhash_get_datasize isprime block_number = some s) :
    0 < s ∧ s % 128 = 0 ∧ ∃ k, (s : Int) = dataset_size_candidate (epoch block_number) k := by
  obtain ⟨k, hk⟩ := size_search_steps _ _ _ _ _ h
  simp only [dataset_size_start, BZHASH_DATASET_BYTES_INIT, BZHASH_DATASET_BYTES_GROWTH,
    BZHASH_MIX_BYTES] at hk
  refine ⟨by omega, by omega, k, ?_⟩
  simp only [dataset_size_candidate, BZHASH_DATASET_BYTES_INIT, BZHASH_DATASET_BYTES_GROWTH]
  push_cast
  omega

/-- C6: with the constants of `bzhash.h` and exact arithmetic, for every epoch `e`
and every number `k` of decrement steps that keeps the value positive, the cache
size candidate is a positive multiple of 64 and the dataset size candidate a
positive multiple of 128; hence whatever candidate the size search stops at,
the cache size is a (positive) multiple of 64 and the dataset size a (positive)
multiple of 128, and each is one of those candidates. -/
theorem size_candidates_multiple :
    (∀ e k : Nat, 0 < cache_size_candidate e k →
      ∃ m : Int, 0 < m ∧ cache_size_candidate e k = 64 * m)
    ∧ (∀ e k : Nat, 0 < dataset_size_candidate e k →
      ∃ m : Int, 0 < m ∧ dataset_size_candidate e k = 128 * m)
    ∧ (∀ (isprime : Nat → Bool) (block_number s : Nat),
        bzhash_get_cachesize isprime block_number = some s →
        0 < s ∧ s % 64 = 0 ∧ ∃ k, (s : Int) = cache_size_candidate (epoch block_number) k)
    ∧ (∀ (isprime : Nat → Bool) (block_number s : Nat),
        bzhash_get_datasize isprime block_number = some s →
        0 < s ∧ s % 128 = 0 ∧ ∃ k, (s : Int) = dataset_size_candidate (epoch block_number) k) := by
  refine ⟨?_, ?_, bzhash_get_cachesize_spec, bzhash_get_datasize_spec⟩
  · intro e k h
    simp only [cache_size_candidate, BZHASH_CACHE_BYTES_INIT, BZHASH_CACHE_BYTES_GROWTH] at h ⊢
    push_cast at h ⊢
    exact ⟨16777216 + 2048 * e - 1 - 2 * k, by omega, by ring⟩
  · intro e k h
    simp only [dataset_size_candidate, BZHASH_DATASET_BYTES_INIT,
      BZHASH_DATASET_BYTES_GROWTH] at h ⊢
    push_cast at h ⊢
    exact ⟨8388608 + 65536 * e - 1 - 2 * k, by omega, by ring⟩

/-- Witness for C6: at epoch 0 and two decrements the candidates are positive,
and a search that accepts its start stops at `2^30 - 64` and `2^30 - 128`. -/
theorem size_candidates_multiple_witness :
    (0 < cache_size_candidate 0 2 ∧ ∃ m : Int, 0 < m ∧ cache_size_candidate 0 2 = 64 * m)
    ∧ (0 < dataset_size_candidate 0 2
        ∧ ∃ m : Int, 0 < m ∧ dataset_size_candidate 0 2 = 128 * m)
    ∧ (bzhash_get_cachesize (fun _ => true) 0 = some 1073741760
        ∧ 0 < 1073741760 ∧ 1073741760 % 64 = 0)
    ∧ (bzhash_get_datasize (fun _ => true) 0 = some 1073741696
        ∧ 0 < 1073741696 ∧ 1073741696 % 128 = 0) :=
  ⟨⟨by decide, size_candidates_multiple.1 0 2 (by decide)⟩,
   ⟨by decide, size_candidates_multiple.2.1 0 2 (by decide)⟩,
   ⟨size_search_of_start _ _ _ _ rfl,
    (size_candidates_multiple.2.2.1 (fun _ => true) 0 1073741760
      (size_search_of_start _ _ _ _ rfl)).1,
    (size_candidates_multiple.2.2.1 (fun _ => true) 0 1073741760
      (size_search_of_start _ _ _ _ rfl)).2.1⟩,
   ⟨size_search_of_start _ _ _ _ rfl,
    (size_candidates_multiple.2.2.2 (fun _ => true) 0 1073741696
      (size_search_of_start _ _ _ _ rfl)).1,
    (size_candidates_multiple.2.2.2 (fun _ => true) 0 1073741696
      (size_search_of_start _ _ _ _ rfl)).2.1⟩⟩

/-! ## Light and full paths -/

/-- A dataset that was generated holds, in index order, exactly the elements the
single-item derivation gives. -/
theorem full_data_loop_eq (P : hash_primitives) (light : bzhash_light)
    (callback : Nat → Int) (total rem i : Nat) (data : List node)
    (h : full_data_loop P light callback total rem i = some data) :
    data = (List.range' i rem).map fun k => bzhash_calculate_dag_item P k light := by
  induction rem generalizing i data with
  | zero =>
    simp only [full_data_loop, Option.some.injEq] at h
    simp [← h]
  | succ rem ih =>
    unfold full_data_loop at h
    split at h
    · simp at h
    · cases hrec : full_data_loop P light callback total rem (i + 1) with
      | none => simp [hrec] at h
      | some rest =>
        simp only [hrec, Option.map_some', Option.some.injEq] at h
        rw [← h, ih (i + 1) rest hrec, List.range'_succ, List.map_cons]

/-- A callback that never asks to stop lets the generation loop finish. -/
theorem full_data_loop_isSome (P : hash_primitives) (light : bzhash_light)
    (callback : Nat → Int) (hcb : ∀ p, callback p = 0) (total rem i : Nat) :
    (full_data_loop P light callback total rem i).isSome = true := by
  induction rem generalizing i with
  | zero => simp [full_data_loop]
  | succ rem ih =>
    unfold full_data_loop
    rw [if_neg (fun h => h.2 (hcb _))]
    have := ih (i + 1)
    cases hrec : full_data_loop P light callback total rem (i + 1) with
    | none => simp [hrec] at this
    | some rest => simp

/-- Element `k` of a generated dataset is the derived item `k`. -/
theorem node_at_full_data (P : hash_primitives) (full_size : Nat) (light : bzhash_light)
    (callback : Nat → Int) (data : List node)
    (h : bzhash_compute_full_data P full_size light callback = some data)
    (k : Nat) (hk : k < full_size / 64) :
    node_at data k = bzhash_calculate_dag_item P k light := by
  unfold bzhash_compute_full_data at h
  split at h
  · simp at h
  · have hd := full_data_loop_eq _ _ _ _ _ _ _ h
    have hlen : k < (List.range' 0 (full_size / BZHASH_HASH_BYTES)).length := by
      simpa [BZHASH_HASH_BYTES] using hk
    rw [hd, node_at, List.getD_eq_getElem _ _ (by simpa using hlen), List.getElem_map,
      List.getElem_range']
    simp

/-- A dataset is generated only for a positive `full_size` aligned to
`MIX_BYTES`. -/
theorem full_size_valid_of_compute (P : hash_primitives) (full_size : Nat)
    (light : bzhash_light) (callback : Nat → Int) (data : List node)
    (h : bzhash_compute_full_data P full_size light callback = some data) :
    ¬ (full_size = 0 ∨ full_size % BZHASH_MIX_BYTES ≠ 0) := by
  unfold bzhash_compute_full_data at h
  split at h
  · simp at h
  · assumption

/-- Every element the mixing loop fetches has an index below `full_size / 64`, so
two lookups that agree there give the same access. -/
theorem mix_access_congr (lookup1 lookup2 : Nat → node) (full_size : Nat)
    (hv : ¬ (full_size = 0 ∨ full_size % BZHASH_MIX_BYTES ≠ 0))
    (hl : ∀ k, k < full_size / 64 → lookup1 k = lookup2 k)
    (seed : node) (mix : List Nat) (i : Nat) :
    mix_access lookup1 full_size seed mix i = mix_access lookup2 full_size seed mix i := by
  have hfetch : ∀ x : Nat,
      ((List.range MIX_NODES).map fun k =>
          lookup1 (x % (full_size / BZHASH_HASH_BYTES / MIX_NODES) * MIX_NODES + k))
        = (List.range MIX_NODES).map fun k =>
          lookup2 (x % (full_size / BZHASH_HASH_BYTES / MIX_NODES) * MIX_NODES + k) := by
    intro x
    apply List.map_congr_left
    intro k hk
    apply hl
    have hk2 : k < 2 := by simpa [MIX_NODES, MIX_WORDS, NODE_WORDS, BZHASH_MIX_BYTES] using hk
    have h2 : MIX_NODES = 2 := by decide
    simp only [BZHASH_MIX_BYTES] at hv
    have hpos : 0 < full_size / 64 / 2 := by omega
    have hr := Nat.mod_lt x hpos
    simp only [BZHASH_HASH_BYTES, h2]
    omega
  simp only [mix_access, hfetch]

/-- The hash engine gives the same return value over two lookups that agree on
every index below `full_size / 64`. -/
theorem bzhash_hash_congr (P : hash_primitives) (lookup1 lookup2 : Nat → node)
    (full_size : Nat) (header_hash : bzhash_h256_t) (nonce : Nat)
    (hl : ∀ k, k < full_size / 64 → lookup1 k = lookup2 k) :
    bzhash_hash P lookup1 full_size header_hash nonce
      = bzhash_hash P lookup2 full_size header_hash nonce := by
  unfold bzhash_hash
  by_cases hv : full_size = 0 ∨ full_size % BZHASH_MIX_BYTES ≠ 0
  · rw [if_pos hv, if_pos hv]
  · rw [if_neg hv, if_neg hv]
    have hfun : mix_access lookup1 full_size
          (node_of_bytes (P.hash512 (h256_bytes header_hash ++ le_bytes nonce 8)))
        = mix_access lookup2 full_size
          (node_of_bytes (P.hash512 (h256_bytes header_hash ++ le_bytes nonce 8))) := by
      funext mix i
      exact mix_access_congr lookup1 lookup2 full_size hv hl _ mix i
    simp only [hfun]

/-- The hash engine reports success on a positive `full_size` aligned to
`MIX_BYTES`. -/
theorem bzhash_hash_success (P : hash_primitives) (lookup : Nat → node)
    (full_size : Nat) (header_hash : bzhash_h256_t) (nonce : Nat)
    (hv : ¬ (full_size = 0 ∨ full_size % BZHASH_MIX_BYTES ≠ 0)) :
    (bzhash_hash P lookup full_size header_hash nonce).success = true := by
  unfold bzhash_hash
  rw [if_neg hv]

/-- The two paths agree for any light handle and the full handle built from it
with the same `full_size`, and both report success. -/
theorem full_compute_eq_light_compute_internal (P : hash_primitives) (full_size : Nat)
    (light : bzhash_light) (callback : Nat → Int) (full : bzhash_full)
    (header_hash : bzhash_h256_t) (nonce : Nat)
    (hf : bzhash_full_new_internal P full_size light callback = some full) :
    bzhash_full_compute P full header_hash nonce
        = bzhash_light_compute_internal P light full_size header_hash nonce
      ∧ (bzhash_light_compute_internal P light full_size header_hash nonce).success = true := by
  unfold bzhash_full_new_internal at hf
  cases hd : bzhash_compute_full_data P full_size light callback with
  | none => simp [hd] at hf
  | some data =>
    simp only [hd, Option.map_some', Option.some.injEq] at hf
    subst hf
    refine ⟨?_, bzhash_hash_success _ _ _ _ _ (full_size_valid_of_compute _ _ _ _ _ hd)⟩
    exact bzhash_hash_congr P _ _ full_size header_hash nonce
      fun k hk => node_at_full_data P full_size light callback data hd k hk

/-- An option that is `some` is `some` of its `getD`. -/
theorem eq_some_getD_of_isSome {α : Type} (o : Option α) (d : α) (h : o.isSome = true) :
    o = some (o.getD d) := by
  cases o with
  | none => simp at h
  | some a => rfl

/-- A light handle records the block number it was made for. -/
theorem bzhash_light_new_block_number (P : hash_primitives) (isprime : Nat → Bool)
    (block_number : Nat) (light : bzhash_light)
    (h : bzhash_light_new P isprime block_number = some light) :
    light.block_number = block_number := by
  unfold bzhash_light_new at h
  split at h
  · simp at h
  · rw [Option.map_eq_some'] at h
    obtain ⟨l, _, hl⟩ := h
    rw [← hl]

/-- Whenever the cache size search stops, the light handle is made. -/
theorem bzhash_light_new_isSome (P : hash_primitives) (isprime : Nat → Bool)
    (block_number cache_size : Nat)
    (h : bzhash_get_cachesize isprime block_number = some cache_size) :
    (bzhash_light_new P isprime block_number).isSome = true := by
  have hs := bzhash_get_cachesize_spec isprime block_number cache_size h
  have hv : ¬ (cache_size = 0 ∨ cache_size % BZHASH_HASH_BYTES ≠ 0) := by
    simp only [BZHASH_HASH_BYTES]
    omega
  simp only [bzhash_light_new, h, bzhash_light_new_internal, bzhash_compute_cache_nodes,
    if_neg hv, Option.map_some', Option.isSome_some]

/-- Whenever the dataset size search stops and the callback never asks to stop,
the full handle is made. -/
theorem bzhash_full_new_isSome (P : hash_primitives) (isprime : Nat → Bool)
    (light : bzhash_light) (callback : Nat → Int) (full_size : Nat)
    (hcb : ∀ p, callback p = 0)
    (h : bzhash_get_datasize isprime light.block_number = some full_size) :
    (bzhash_full_new P isprime light callback).isSome = true := by
  have hs := bzhash_get_datasize_spec isprime light.block_number full_size h
  have hv : ¬ (full_size = 0 ∨ full_size % BZHASH_MIX_BYTES ≠ 0) := by
    simp only [BZHASH_MIX_BYTES]
    omega
  have hloop := full_data_loop_isSome P light callback hcb
    (full_size / BZHASH_HASH_BYTES) (full_size / BZHASH_HASH_BYTES) 0
  simp only [bzhash_full_new, h, bzhash_full_new_internal, bzhash_compute_full_data,
    if_neg hv, Option.isSome_map', hloop]

/-- The light handle of block 0 is made and is `witness_light`. -/
theorem witness_light_new :
    bzhash_light_new witness_primitives (fun _ => true) 0 = some witness_light :=
  eq_some_getD_of_isSome _ _
    (bzhash_light_new_isSome _ _ 0 1073741760 (size_search_of_start _ _ _ _ rfl))

/-- The full handle of `witness_light` is made and is `witness_full`. -/
theorem witness_full_new :
    bzhash_full_new witness_primitives (fun _ => true) witness_light (fun _ => 0)
      = some witness_full :=
  eq_some_getD_of_isSome _ _
    (bzhash_full_new_isSome _ _ witness_light _ 1073741696 (fun _ => rfl)
      (by rw [bzhash_light_new_block_number _ _ _ _ witness_light_new]
          exact size_search_of_start _ _ _ _ rfl))

/-- C4: for every header hash and nonce, and every block number whose full
dataset was generated from that block's own light cache, `bzhash_light_compute`
and `bzhash_full_compute` return identical `result` and `mix_hash`, and both
report success. -/
theorem bzhash_light_full_equivalence (P : hash_primitives) (isprime : Nat → Bool)
    (block_number : Nat) (callback : Nat → Int) (light : bzhash_light) (full : bzhash_full)
    (header_hash : bzhash_h256_t) (nonce : Nat)
    (hl : bzhash_light_new P isprime block_number = some light)
    (hf : bzhash_full_new P isprime light callback = some full) :
    light.block_number = block_number
    ∧ (bzhash_light_compute P isprime light header_hash nonce).result
        = (bzhash_full_compute P full header_hash nonce).result
    ∧ (bzhash_light_compute P isprime light header_hash nonce).mix_hash
        = (bzhash_full_compute P full header_hash nonce).mix_hash
    ∧ (bzhash_light_compute P isprime light header_hash nonce).success = true
    ∧ (bzhash_full_compute P full header_hash nonce).success = true := by
  refine ⟨bzhash_light_new_block_number P isprime block_number light hl, ?_⟩
  unfold bzhash_full_new at hf
  unfold bzhash_light_compute
  cases hd : bzhash_get_datasize isprime light.block_number with
  | none => simp [hd] at hf
  | some full_size =>
    simp only [hd] at hf ⊢
    obtain ⟨heq, hs⟩ := full_compute_eq_light_compute_internal P full_size light callback
      full header_hash nonce hf
    rw [heq]
    exact ⟨rfl, rfl, hs, hs⟩

/-- Witness for C4: block 0, its light handle and the full handle generated
from it. -/
theorem bzhash_light_full_equivalence_witness :
    bzhash_light_new witness_primitives (fun _ => true) 0 = some witness_light
    ∧ bzhash_full_new witness_primitives (fun _ => true) witness_light (fun _ => 0)
        = some witness_full
    ∧ (bzhash_light_compute witness_primitives (fun _ => true) witness_light witness_hash 7).result
        = (bzhash_full_compute witness_primitives witness_full witness_hash 7).result
    ∧ (bzhash_light_compute witness_primitives (fun _ => true)
          witness_light witness_hash 7).success = true :=
  ⟨witness_light_new, witness_full_new,
   (bzhash_light_full_equivalence witness_primitives (fun _ => true) 0 (fun _ => 0)
      witness_light witness_full witness_hash 7 witness_light_new witness_full_new).2.1,
   (bzhash_light_full_equivalence witness_primitives (fun _ => true) 0 (fun _ => 0)
      witness_light witness_full witness_hash 7 witness_light_new witness_full_new).2.2.2.1⟩

end Bzhash
